import Mathlib

/-!
# myown-filesystem: the node layer of `internal/custom_filesystem.go`

A shallow embedding of the `Root` and `Directory` nodes (`Getattr`, `Lookup`,
`Readdir`) and the properties of their listing and resolution behaviour.

Modelling conventions

* A Go `string` is a Lean `String`; the only string operation the code performs
  is `strings.Split(_, "/")`, whose separator is a single ASCII byte, so splitting
  characters and splitting bytes agree.
* A Go `(value, error)` pair is an `Except Error value`: the code never looks at
  the value when the error is non-nil.
* `out *fuse.EntryOut` / `out *fuse.AttrOut` are passed in and returned updated.
* The store client is an interface value held by `Root`; its three methods are
  fields of `ClientBase`.  Every call a method makes on the client is recorded in
  a trace so that "does not call" can be stated.
* `fmt.Println` output is not modelled.
-/

set_option autoImplicit false

namespace MyownFilesystem

/-! ## Constants of package `syscall` (linux) -/

namespace syscall

/-- Bit mask of the file-type bits of a mode. -/
def S_IFMT : Nat := 0o170000
/-- Directory file type. -/
def S_IFDIR : Nat := 0o040000
/-- Regular file type. -/
def S_IFREG : Nat := 0o100000
/-- Errno "no such file or directory". -/
def ENOENT : Nat := 2

end syscall

/-! ## `strings.Split` with the separator `"/"` -/

namespace strings

/-- Split a character sequence at every occurrence of `sep`.  The result always has
one more element than there are separators, as with Go's `strings.Split`. -/
def splitChars (sep : Char) : List Char → List (List Char)
  | [] => [[]]
  | c :: cs =>
    if c = sep then [] :: splitChars sep cs
    else
      match splitChars sep cs with
      | [] => [[c]]
      | seg :: rest => (c :: seg) :: rest

/-- Go `strings.Split(s, sep)` for a one-character separator. -/
def Split (s : String) (sep : Char) : List String :=
  (splitChars sep s.data).map String.mk

end strings

/-! ## Data model -/

/-- Go `error` values are not inspected by the code; only their presence matters. -/
abbrev Error := String

/-- Record `fuse.DirEntry`, restricted to the fields the code sets. -/
structure DirEntry where
  Mode : Nat
  Name : String
  deriving DecidableEq, Repr

/-- Record `fuse.EntryOut`, restricted to the fields the code sets (`Mode`, `Size`
of the embedded `Attr`). -/
structure EntryOut where
  Mode : Nat
  Size : Nat
  deriving DecidableEq, Repr

/-- Record `fuse.AttrOut`, restricted to the field the code sets. -/
structure AttrOut where
  Mode : Nat
  deriving DecidableEq, Repr

/-- The object returned by `ClientBase.GetObject`.  `Body` is the outcome of
`io.ReadAll(object.Body)`; `ContentLengthByte` is the signed length reported by the
store. -/
structure Object where
  Body : Except Error (List Nat)
  ContentLengthByte : Int

/-- Interface `ClientBase` as used by `Root`: the three methods the node layer calls. -/
structure ClientBase where
  List : String → Except Error (List String)
  IsDirectory : String → Except Error Bool
  GetObject : String → Except Error Object

/-- One call made on the store client. -/
inductive ClientCall where
  | list (pfx : String)
  | isDirectory (name : String)
  | getObject (name : String)
  deriving DecidableEq, Repr

/-- Struct `Directory`. -/
structure Directory where
  name : String
  deriving DecidableEq, Repr

/-- Struct `Root`. -/
structure Root where
  Client : ClientBase

/-- The operations object handed to `NewInode`: a `*Directory` or an
`*fs.MemRegularFile` with its `Data` and `Attr.Mode`. -/
inductive InodeEmbedder where
  | directory (d : Directory)
  | memRegularFile (Data : List Nat) (AttrMode : Nat)
  deriving DecidableEq, Repr

/-- The result of `NewInode(ctx, ops, fs.StableAttr{Mode: m})`. -/
structure Inode where
  ops : InodeEmbedder
  stableMode : Nat
  deriving DecidableEq, Repr

/-- Everything a `Lookup` call produces: the returned node (`none` for `nil`), the
errno, the `EntryOut` after the call and the client calls made, in order. -/
structure LookupResult where
  node : Option Inode
  errno : Nat
  out : EntryOut
  calls : List ClientCall
  deriving DecidableEq, Repr

/-- Everything a `Readdir` call produces: the entries of the returned
`fs.NewListDirStream` (`none` for a `nil` stream), the errno and the client calls. -/
structure ReaddirResult where
  stream : Option (List DirEntry)
  errno : Nat
  calls : List ClientCall
  deriving DecidableEq, Repr

/-- Go conversion `uint64(x)` of a signed integer. -/
def uint64 (x : Int) : Nat := (x % 2 ^ 64).toNat

/-- Go conversion `[]byte(s)`: the UTF-8 bytes of a string. -/
def bytesOf (s : String) : List Nat :=
  (s.data.flatMap String.utf8EncodeChar).map UInt8.toNat

/-! ## `Root` -/

/-- Method `(*Root).Getattr`. -/
def Root.Getattr (_r : Root) (_out : AttrOut) : AttrOut × Nat :=
  ({ Mode := 0o755 }, 0)

/-- Method `(*Root).Lookup`. -/
def Root.Lookup (r : Root) (name : String) (out : EntryOut) : LookupResult :=
  match r.Client.IsDirectory name with
  | .error _ => ⟨none, syscall.ENOENT, out, [.isDirectory name]⟩
  | .ok isDirectory =>
    if isDirectory then
      let chile : Inode := ⟨.directory { name := name }, syscall.S_IFDIR⟩
      ⟨some chile, 0, { Mode := syscall.S_IFDIR ||| 0o755, Size := out.Size },
        [.isDirectory name]⟩
    else
      match r.Client.GetObject name with
      | .error _ => ⟨none, syscall.ENOENT, out, [.isDirectory name, .getObject name]⟩
      | .ok object =>
        match object.Body with
        | .error _ => ⟨none, syscall.ENOENT, out, [.isDirectory name, .getObject name]⟩
        | .ok body =>
          let chile : Inode := ⟨.memRegularFile body 0o444, syscall.S_IFREG⟩
          ⟨some chile, 0, { Mode := 0o444, Size := uint64 object.ContentLengthByte },
            [.isDirectory name, .getObject name]⟩

/-- The body of the `for i := range iter` loop of `(*Root).Readdir`: append the entry
of one key. -/
def Root.readdirStep (entry : List DirEntry) (k : String) : List DirEntry :=
  let s := strings.Split k '/'
  let key := s.headD ""
  if s.length = 1 then
    entry ++ [{ Mode := syscall.S_IFREG, Name := key }]
  else
    entry ++ [{ Mode := syscall.S_IFDIR, Name := key }]

/-- Method `(*Root).Readdir`. -/
def Root.Readdir (r : Root) : ReaddirResult :=
  match r.Client.List "" with
  | .error _ => ⟨none, syscall.ENOENT, [.list ""]⟩
  | .ok iter => ⟨some (iter.foldl Root.readdirStep []), 0, [.list ""]⟩

/-! ## `Directory` -/

/-- Method `(*Directory).Lookup`. -/
def Directory.Lookup (_d : Directory) (name : String) (out : EntryOut) : LookupResult :=
  if name = "children.txt" then
    let chile : Inode := ⟨.memRegularFile (bytesOf "childrennnnn") 0o444, syscall.S_IFREG⟩
    ⟨some chile, 0, { Mode := 0o444, Size := 1 }, []⟩
  else
    ⟨none, syscall.ENOENT, out, []⟩

/-- Method `(*Directory).Readdir`. -/
def Directory.Readdir (d : Directory) : ReaddirResult :=
  if d.name = "hoge" then
    ⟨some [{ Mode := syscall.S_IFREG, Name := "children.txt" }], 0, []⟩
  else
    ⟨none, syscall.ENOENT, []⟩

/-! ## Store clients used as concrete inputs -/

/-- A store client faithful to a key list `K`: `List p` returns the keys of `K` that
begin with `p`, `IsDirectory n` holds exactly when a key begins with `n ++ "/"`, and
`GetObject k` succeeds exactly on the keys of `K` (the content of an object is taken
to be the bytes of its key). -/
def storeClient (K : List String) : ClientBase where
  List := fun pfx => .ok (K.filter (fun k => pfx.data.isPrefixOf k.data))
  IsDirectory := fun n => .ok (K.any (fun k => (n.data ++ ['/']).isPrefixOf k.data))
  GetObject := fun k =>
    if k ∈ K then .ok { Body := .ok (bytesOf k), ContentLengthByte := (bytesOf k).length }
    else .error "NoSuchKey"

/-- A store client whose every call fails. -/
def failingClient : ClientBase where
  List := fun _ => .error "unavailable"
  IsDirectory := fun _ => .error "unavailable"
  GetObject := fun _ => .error "unavailable"

/-- A store client holding one object `k` whose body cannot be read and whose reported
length is `len`. -/
def brokenBodyClient (k : String) (len : Int) : ClientBase where
  List := fun _ => .ok [k]
  IsDirectory := fun _ => .ok false
  GetObject := fun n =>
    if n = k then .ok { Body := .error "unexpected EOF", ContentLengthByte := len }
    else .error "NoSuchKey"

/-- The entry `(*Root).Readdir` appends for the key `k`. -/
def Root.entryOf (k : String) : DirEntry :=
  { Mode := if (strings.Split k '/').length = 1 then syscall.S_IFREG else syscall.S_IFDIR,
    Name := (strings.Split k '/').headD "" }

/-- The key `k` begins with `p` (Go `strings.HasPrefix(k, p)`). -/
def beginsWith (k p : String) : Prop := p.data <+: k.data

instance (k p : String) : Decidable (beginsWith k p) := by
  unfold beginsWith; infer_instance

/-! ## Lemmas on `strings.Split` -/

theorem strings.splitChars_cons_sep (sep : Char) (cs : List Char) :
    strings.splitChars sep (sep :: cs) = [] :: strings.splitChars sep cs := by
  simp [strings.splitChars]

theorem strings.splitChars_cons_ne (sep c : Char) (cs : List Char) (h : c ≠ sep) :
    ∃ seg rest, strings.splitChars sep cs = seg :: rest ∧
      strings.splitChars sep (c :: cs) = (c :: seg) :: rest := by
  cases hs : strings.splitChars sep cs with
  | nil => 
    exfalso
    revert hs
    cases cs with
    | nil => simp [strings.splitChars]
    | cons d ds =>
      unfold strings.splitChars
      split_ifs
      · simp
      · split <;> simp
  | cons seg rest =>
    refine ⟨seg, rest, rfl, ?_⟩
    simp [strings.splitChars, h, hs]

theorem strings.splitChars_ne_nil (sep : Char) (l : List Char) :
    strings.splitChars sep l ≠ [] := by
  cases l with
  | nil => simp [strings.splitChars]
  | cons c cs =>
    by_cases h : c = sep
    · subst h; simp [strings.splitChars_cons_sep]
    · obtain ⟨seg, rest, -, h2⟩ := strings.splitChars_cons_ne sep c cs h
      simp [h2]

/-- A split with exactly one segment returns the whole input. -/
theorem strings.splitChars_singleton (sep : Char) (l seg : List Char)
    (h : strings.splitChars sep l = [seg]) : l = seg ∧ sep ∉ l := by
  induction l generalizing seg with
  | nil => simp [strings.splitChars] at h; simp [h]
  | cons c cs ih =>
    by_cases hc : c = sep
    · subst hc
      rw [strings.splitChars_cons_sep] at h
      simp at h
      exact absurd h.2 (strings.splitChars_ne_nil _ _)
    · obtain ⟨seg1, rest, h1, h2⟩ := strings.splitChars_cons_ne sep c cs hc
      rw [h2] at h
      simp at h
      obtain ⟨hseg, hrest⟩ := h
      subst hrest
      obtain ⟨e1, e2⟩ := ih seg1 h1
      subst hseg
      refine ⟨by rw [e1], ?_⟩
      simp only [List.mem_cons, not_or]
      exact ⟨fun e => hc e.symm, e2⟩

/-- A split with more than one segment: the input begins with the first segment
followed by the separator. -/
theorem strings.splitChars_head_sep (sep : Char) (l seg s2 : List Char)
    (rest : List (List Char)) (h : strings.splitChars sep l = seg :: s2 :: rest) :
    seg ++ [sep] <+: l := by
  induction l generalizing seg with
  | nil => simp [strings.splitChars] at h
  | cons c cs ih =>
    by_cases hc : c = sep
    · subst hc
      rw [strings.splitChars_cons_sep] at h
      simp at h
      have hs : seg = [] := h.1
      subst hs
      exact ⟨cs, rfl⟩
    · obtain ⟨seg1, rest1, h1, h2⟩ := strings.splitChars_cons_ne sep c cs hc
      rw [h2] at h
      simp at h
      obtain ⟨hseg, hrest⟩ := h
      subst hseg
      rw [hrest] at h1
      have := ih seg1 h1
      simpa [List.cons_prefix_cons] using this

/-- A separator-free sequence splits into itself. -/
theorem strings.splitChars_of_not_mem (sep : Char) (x : List Char) (h : sep ∉ x) :
    strings.splitChars sep x = [x] := by
  induction x with
  | nil => simp [strings.splitChars]
  | cons c cs ih =>
    simp only [List.mem_cons, not_or] at h
    obtain ⟨seg, rest, h1, h2⟩ := strings.splitChars_cons_ne sep c cs (fun e => h.1 e.symm)
    rw [h2]
    rw [ih h.2] at h1
    simp at h1
    simp [h1]

/-- A separator-free sequence followed by the separator is the first segment. -/
theorem strings.splitChars_append_sep (sep : Char) (x t : List Char) (h : sep ∉ x) :
    strings.splitChars sep (x ++ sep :: t) = x :: strings.splitChars sep t := by
  induction x with
  | nil => simp [strings.splitChars_cons_sep]
  | cons c cs ih =>
    simp only [List.mem_cons, not_or] at h
    obtain ⟨seg, rest, h1, h2⟩ :=
      strings.splitChars_cons_ne sep c (cs ++ sep :: t) (fun e => h.1 e.symm)
    rw [List.cons_append, h2]
    rw [ih h.2] at h1
    simp at h1
    simp [h1]

/-- The number of segments is the number of separators plus one. -/
theorem strings.splitChars_length (sep : Char) (l : List Char) :
    (strings.splitChars sep l).length = l.count sep + 1 := by
  induction l with
  | nil => simp [strings.splitChars]
  | cons c cs ih =>
    by_cases hc : c = sep
    · subst hc
      simp [strings.splitChars_cons_sep, ih]
    · obtain ⟨seg, rest, h1, h2⟩ := strings.splitChars_cons_ne sep c cs hc
      rw [h2, List.count_cons_of_ne (fun e => hc e.symm), ← ih, h1]
      simp

/-- No segment contains the separator. -/
theorem strings.splitChars_no_sep (sep : Char) (l : List Char) :
    ∀ seg ∈ strings.splitChars sep l, sep ∉ seg := by
  induction l with
  | nil => simp [strings.splitChars]
  | cons c cs ih =>
    by_cases hc : c = sep
    · subst hc
      intro seg hseg
      rw [strings.splitChars_cons_sep] at hseg
      rcases List.mem_cons.1 hseg with rfl | h
      · simp
      · exact ih seg h
    · obtain ⟨seg1, rest, h1, h2⟩ := strings.splitChars_cons_ne sep c cs hc
      intro seg hseg
      rw [h2] at hseg
      rw [h1] at ih
      rcases List.mem_cons.1 hseg with rfl | h
      · have := ih seg1 (List.mem_cons_self _ _)
        simp only [List.mem_cons, not_or]
        exact ⟨fun e => hc e.symm, this⟩
      · exact ih seg (List.mem_cons_of_mem _ h)

/-- Joining the segments with the separator gives the input back. -/
theorem strings.splitChars_join (sep : Char) (l : List Char) :
    [sep].intercalate (strings.splitChars sep l) = l := by
  induction l with
  | nil => simp [strings.splitChars, List.intercalate]
  | cons c cs ih =>
    by_cases hc : c = sep
    · subst hc
      rw [strings.splitChars_cons_sep]
      cases hs : strings.splitChars c cs with
      | nil => exact absurd hs (strings.splitChars_ne_nil _ _)
      | cons a t =>
        rw [hs] at ih
        simp [List.intercalate] at ih ⊢
        exact ih
    · obtain ⟨seg1, rest, h1, h2⟩ := strings.splitChars_cons_ne sep c cs hc
      rw [h2]
      rw [h1] at ih
      cases rest with
      | nil => simp [List.intercalate] at ih ⊢; exact ih
      | cons a t => simp [List.intercalate] at ih ⊢; exact ih

theorem strings.Split_ne_nil (s : String) (sep : Char) : strings.Split s sep ≠ [] := by
  simp [strings.Split, strings.splitChars_ne_nil]

/-! ## Lemmas on the listing loop -/

theorem Root.readdirStep_eq (entry : List DirEntry) (k : String) :
    Root.readdirStep entry k = entry ++ [Root.entryOf k] := by
  unfold Root.readdirStep Root.entryOf
  by_cases h : (strings.Split k '/').length = 1 <;> simp [h]

theorem Root.foldl_readdirStep (ks : List String) (entry : List DirEntry) :
    ks.foldl Root.readdirStep entry = entry ++ ks.map Root.entryOf := by
  induction ks generalizing entry with
  | nil => simp
  | cons k ks ih => simp [List.foldl, ih, Root.readdirStep_eq]

theorem Root.Readdir_ok (r : Root) (ks : List String) (h : r.Client.List "" = .ok ks) :
    r.Readdir = ⟨some (ks.map Root.entryOf), 0, [.list ""]⟩ := by
  simp [Root.Readdir, h, Root.foldl_readdirStep]

/-! ## Lemmas on `Root.entryOf` -/

theorem strings.Split_cases (k : String) (sep : Char) :
    (∃ seg, strings.splitChars sep k.data = [seg]) ∨
    (∃ seg s2 rest, strings.splitChars sep k.data = seg :: s2 :: rest) := by
  cases h : strings.splitChars sep k.data with
  | nil => exact absurd h (strings.splitChars_ne_nil _ _)
  | cons seg rest =>
    cases rest with
    | nil => exact Or.inl ⟨seg, rfl⟩
    | cons s2 rest => exact Or.inr ⟨seg, s2, rest, rfl⟩

/-- A key without delimiter is listed under its own name as a regular file. -/
theorem Root.entryOf_file (k : String) (h : (strings.Split k '/').length = 1) :
    Root.entryOf k = ⟨syscall.S_IFREG, k⟩ := by
  rcases strings.Split_cases k '/' with ⟨seg, hs⟩ | ⟨seg, s2, rest, hs⟩
  · have hk := (strings.splitChars_singleton '/' k.data seg hs).1
    have hk2 : k = String.mk seg := by rw [← hk]
    simp [Root.entryOf, strings.Split, hs, ← hk2]
  · simp [strings.Split, hs] at h

/-- A key with a delimiter is listed as a directory named by a segment that, followed
by the delimiter, is a prefix of the key. -/
theorem Root.entryOf_dir (k : String) (h : (strings.Split k '/').length ≠ 1) :
    (Root.entryOf k).Mode = syscall.S_IFDIR ∧
      beginsWith k ((Root.entryOf k).Name ++ "/") := by
  rcases strings.Split_cases k '/' with ⟨seg, hs⟩ | ⟨seg, s2, rest, hs⟩
  · simp [strings.Split, hs] at h
  · have hp := strings.splitChars_head_sep '/' k.data seg s2 rest hs
    refine ⟨by simp [Root.entryOf, h], ?_⟩
    simpa [Root.entryOf, strings.Split, hs, beginsWith, String.data_append] using hp

/-- The entry of a delimiter-free key. -/
theorem Root.entryOf_of_no_delim (x : String) (h : '/' ∉ x.data) :
    Root.entryOf x = ⟨syscall.S_IFREG, x⟩ := by
  apply Root.entryOf_file
  simp [strings.Split, strings.splitChars_of_not_mem '/' x.data h]

/-- The entry of a key that begins with a delimiter-free name followed by the
delimiter. -/
theorem Root.entryOf_of_beginsWith (x k : String) (h : '/' ∉ x.data)
    (hk : beginsWith k (x ++ "/")) : Root.entryOf k = ⟨syscall.S_IFDIR, x⟩ := by
  obtain ⟨t, ht⟩ := hk
  have hd : k.data = x.data ++ '/' :: t := by
    rw [← ht]; simp [String.data_append]
  have hsp := strings.splitChars_append_sep '/' x.data t h
  rcases strings.Split_cases ⟨t⟩ '/' with ⟨seg, hs⟩ | ⟨seg, s2, rest, hs⟩ <;>
    simp at hs <;> simp [Root.entryOf, strings.Split, hd, hsp, hs]

/-! ## Lemmas on `storeClient` -/

theorem storeClient_List_root (K : List String) : (storeClient K).List "" = .ok K := by
  simp [storeClient]

theorem storeClient_IsDirectory (K : List String) (n : String) :
    ∃ b, (storeClient K).IsDirectory n = .ok b ∧
      (b = true ↔ ∃ k ∈ K, beginsWith k (n ++ "/")) := by
  refine ⟨_, rfl, ?_⟩
  simp [beginsWith, String.data_append, List.any_eq_true]

theorem storeClient_GetObject (K : List String) (k : String) :
    (∃ object body, (storeClient K).GetObject k = .ok object ∧ object.Body = .ok body)
      ↔ k ∈ K := by
  by_cases h : k ∈ K <;> simp [storeClient, h]

/-! ## Theorems -/

/-- C1: whenever `Client.List("")` returns a key list `ks` without error,
`Root.Readdir` returns errno 0 and a listing that holds one entry per key, in key
order; every key has an entry named by the first segment of its split on the
delimiter, tagged `S_IFREG` when the split has exactly one segment and `S_IFDIR` when
it has more; every entry arises from some key in this way; an empty key list gives an
empty listing with errno 0. -/
theorem Root_Readdir_first_level_entries (r : Root) (ks : List String)
    (hList : r.Client.List "" = .ok ks) :
    ∃ entries : List DirEntry,
      r.Readdir.stream = some entries ∧ r.Readdir.errno = 0 ∧
      entries = ks.map Root.entryOf ∧
      (∀ k ∈ ks, ∃ e ∈ entries,
        (strings.Split k '/').head? = some e.Name ∧
        ((strings.Split k '/').length = 1 → e.Mode = syscall.S_IFREG) ∧
        (1 < (strings.Split k '/').length → e.Mode = syscall.S_IFDIR)) ∧
      (∀ e ∈ entries, ∃ k ∈ ks,
        (strings.Split k '/').head? = some e.Name ∧
        ((strings.Split k '/').length = 1 → e.Mode = syscall.S_IFREG) ∧
        (1 < (strings.Split k '/').length → e.Mode = syscall.S_IFDIR)) ∧
      (ks = [] → entries = []) := by
  have key : ∀ k : String,
      (strings.Split k '/').head? = some (Root.entryOf k).Name ∧
      ((strings.Split k '/').length = 1 → (Root.entryOf k).Mode = syscall.S_IFREG) ∧
      (1 < (strings.Split k '/').length → (Root.entryOf k).Mode = syscall.S_IFDIR) := by
    intro k
    refine ⟨?_, ?_, ?_⟩
    · cases h : strings.Split k '/' with
      | nil => exact absurd h (strings.Split_ne_nil _ _)
      | cons a l => simp [Root.entryOf, h]
    · intro h; simp [Root.entryOf, h]
    · intro h
      have h1 : (strings.Split k '/').length ≠ 1 := by omega
      simp [Root.entryOf, h1]
  refine ⟨ks.map Root.entryOf, ?_, ?_, rfl, ?_, ?_, ?_⟩
  · rw [Root.Readdir_ok r ks hList]
  · rw [Root.Readdir_ok r ks hList]
  · intro k hk
    exact ⟨Root.entryOf k, List.mem_map.2 ⟨k, hk, rfl⟩, key k⟩
  · intro e he
    obtain ⟨k, hk, rfl⟩ := List.mem_map.1 he
    exact ⟨k, hk, key k⟩
  · intro h; simp [h]

/-- Witness for C1 on the keys `a.txt`, `dir1/b.txt`. -/
theorem Root_Readdir_first_level_entries_witness :
    (storeClient ["a.txt", "dir1/b.txt"]).List "" = .ok ["a.txt", "dir1/b.txt"] ∧
    ∃ entries : List DirEntry,
      (Root.mk (storeClient ["a.txt", "dir1/b.txt"])).Readdir.stream = some entries ∧
      (Root.mk (storeClient ["a.txt", "dir1/b.txt"])).Readdir.errno = 0 ∧
      entries = ["a.txt", "dir1/b.txt"].map Root.entryOf ∧
      (∀ k ∈ ["a.txt", "dir1/b.txt"], ∃ e ∈ entries,
        (strings.Split k '/').head? = some e.Name ∧
        ((strings.Split k '/').length = 1 → e.Mode = syscall.S_IFREG) ∧
        (1 < (strings.Split k '/').length → e.Mode = syscall.S_IFDIR)) ∧
      (∀ e ∈ entries, ∃ k ∈ ["a.txt", "dir1/b.txt"],
        (strings.Split k '/').head? = some e.Name ∧
        ((strings.Split k '/').length = 1 → e.Mode = syscall.S_IFREG) ∧
        (1 < (strings.Split k '/').length → e.Mode = syscall.S_IFDIR)) ∧
      (["a.txt", "dir1/b.txt"] = [] → entries = []) :=
  ⟨rfl, Root_Readdir_first_level_entries ⟨storeClient ["a.txt", "dir1/b.txt"]⟩
    ["a.txt", "dir1/b.txt"] rfl⟩

/-- C2: `Root.Lookup(name)` classifies, then fetches.  If `IsDirectory(name)` returns
true without error, the call returns errno 0 and a new `Directory` node named `name`
with stable type `S_IFDIR`, and makes no `GetObject` call.  If `IsDirectory(name)`
returns false without error and `GetObject(name)` and the body read succeed, the call
returns errno 0 and a regular-file node (stable type `S_IFREG`) whose `Data` is the
bytes read.  A returned directory node implies the classification was true (and no
fetch happened); a returned file node implies the classification was false: one call
never resolves a name both ways. -/
theorem Root_Lookup_classify_then_fetch (r : Root) (name : String) (out : EntryOut) :
    (r.Client.IsDirectory name = .ok true →
      (r.Lookup name out).errno = 0 ∧
      (r.Lookup name out).node = some ⟨.directory ⟨name⟩, syscall.S_IFDIR⟩ ∧
      (r.Lookup name out).calls = [.isDirectory name] ∧
      ∀ n, ClientCall.getObject n ∉ (r.Lookup name out).calls) ∧
    (∀ object body, r.Client.IsDirectory name = .ok false →
      r.Client.GetObject name = .ok object → object.Body = .ok body →
      (r.Lookup name out).errno = 0 ∧
      (r.Lookup name out).node = some ⟨.memRegularFile body 0o444, syscall.S_IFREG⟩) ∧
    (∀ d m, (r.Lookup name out).node = some ⟨.directory d, m⟩ →
      r.Client.IsDirectory name = .ok true ∧ d.name = name ∧ m = syscall.S_IFDIR ∧
      ∀ n, ClientCall.getObject n ∉ (r.Lookup name out).calls) ∧
    (∀ data am m, (r.Lookup name out).node = some ⟨.memRegularFile data am, m⟩ →
      r.Client.IsDirectory name = .ok false ∧ m = syscall.S_IFREG ∧
      ∃ object, r.Client.GetObject name = .ok object ∧ object.Body = .ok data) := by
  refine ⟨?_, ?_, ?_, ?_⟩
  · intro h
    simp [Root.Lookup, h]
  · intro object body h1 h2 h3
    simp [Root.Lookup, h1, h2, h3]
  · intro d m
    rcases h : r.Client.IsDirectory name with e | b
    · simp [Root.Lookup, h]
    · cases b
      · rcases h2 : r.Client.GetObject name with e | object
        · simp [Root.Lookup, h, h2]
        · rcases h3 : object.Body with e | body <;> simp [Root.Lookup, h, h2, h3]
      · simp only [Root.Lookup, h, if_true]
        intro hd
        simp at hd
        obtain ⟨hd1, hd2⟩ := hd
        subst hd1
        simp [hd2]
  · intro data am m
    rcases h : r.Client.IsDirectory name with e | b
    · simp [Root.Lookup, h]
    · cases b
      · rcases h2 : r.Client.GetObject name with e | object
        · simp [Root.Lookup, h, h2]
        · rcases h3 : object.Body with e | body
          · simp [Root.Lookup, h, h2, h3]
          · simp only [Root.Lookup, h, h2, h3]
            intro hd
            simp at hd
            obtain ⟨⟨hd1, -⟩, hd3⟩ := hd
            subst hd1
            exact ⟨trivial, hd3.symm, object, rfl, h3⟩
      · simp [Root.Lookup, h]

/-- Witness for C2 on the store `a.txt`, `dir1/b.txt`: `dir1` resolves as a directory
without a fetch, `a.txt` resolves as a file carrying the object's bytes. -/
theorem Root_Lookup_classify_then_fetch_witness :
    ((Root.mk (storeClient ["a.txt", "dir1/b.txt"])).Lookup "dir1" ⟨0, 0⟩).node
        = some ⟨.directory ⟨"dir1"⟩, syscall.S_IFDIR⟩ ∧
    ((Root.mk (storeClient ["a.txt", "dir1/b.txt"])).Lookup "dir1" ⟨0, 0⟩).calls
        = [.isDirectory "dir1"] ∧
    ((Root.mk (storeClient ["a.txt", "dir1/b.txt"])).Lookup "a.txt" ⟨0, 0⟩).node
        = some ⟨.memRegularFile (bytesOf "a.txt") 0o444, syscall.S_IFREG⟩ :=
  ⟨((Root_Lookup_classify_then_fetch ⟨storeClient ["a.txt", "dir1/b.txt"]⟩ "dir1"
      ⟨0, 0⟩).1 rfl).2.1,
   ((Root_Lookup_classify_then_fetch ⟨storeClient ["a.txt", "dir1/b.txt"]⟩ "dir1"
      ⟨0, 0⟩).1 rfl).2.2.1,
   ((Root_Lookup_classify_then_fetch ⟨storeClient ["a.txt", "dir1/b.txt"]⟩ "a.txt"
      ⟨0, 0⟩).2.1 ⟨.ok (bytesOf "a.txt"), 5⟩ (bytesOf "a.txt") rfl rfl rfl).2⟩

/-- C3: `Root.Lookup(name)` returns a nil node with `ENOENT` whenever `IsDirectory`
returns an error, or `IsDirectory` returns false and `GetObject` returns an error, or
the read of the object body fails, and it returns `ENOENT` in no other case.  Against
a store where `IsDirectory` is false and `GetObject` fails for every name, every
lookup returns a nil node with `ENOENT`. -/
theorem Root_Lookup_ENOENT_iff (r : Root) (name : String) (out : EntryOut) :
    ((r.Lookup name out).errno = syscall.ENOENT ↔
      ((∃ e, r.Client.IsDirectory name = .error e) ∨
       (r.Client.IsDirectory name = .ok false ∧ ∃ e, r.Client.GetObject name = .error e) ∨
       (r.Client.IsDirectory name = .ok false ∧
          ∃ object e, r.Client.GetObject name = .ok object ∧ object.Body = .error e))) ∧
    ((r.Lookup name out).errno = syscall.ENOENT → (r.Lookup name out).node = none) ∧
    ((r.Lookup name out).errno ≠ syscall.ENOENT →
      (r.Lookup name out).errno = 0 ∧ (r.Lookup name out).node.isSome = true) ∧
    ((∀ n, r.Client.IsDirectory n = .ok false) →
      (∀ n, ∃ e, r.Client.GetObject n = .error e) →
      ∀ n o, (r.Lookup n o).node = none ∧ (r.Lookup n o).errno = syscall.ENOENT) := by
  refine ⟨?_, ?_, ?_, ?_⟩
  · rcases h : r.Client.IsDirectory name with e | b
    · simp [Root.Lookup, h]
    · cases b
      · rcases h2 : r.Client.GetObject name with e | object
        · simp [Root.Lookup, h, h2]
        · rcases h3 : object.Body with e | body <;>
            simp [Root.Lookup, h, h2, h3, syscall.ENOENT]
      · simp [Root.Lookup, h, syscall.ENOENT]
  · rcases h : r.Client.IsDirectory name with e | b
    · simp [Root.Lookup, h]
    · cases b
      · rcases h2 : r.Client.GetObject name with e | object
        · simp [Root.Lookup, h, h2]
        · rcases h3 : object.Body with e | body <;>
            simp [Root.Lookup, h, h2, h3, syscall.ENOENT]
      · simp [Root.Lookup, h, syscall.ENOENT]
  · rcases h : r.Client.IsDirectory name with e | b
    · simp [Root.Lookup, h]
    · cases b
      · rcases h2 : r.Client.GetObject name with e | object
        · simp [Root.Lookup, h, h2]
        · rcases h3 : object.Body with e | body <;>
            simp [Root.Lookup, h, h2, h3, syscall.ENOENT]
      · simp [Root.Lookup, h, syscall.ENOENT]
  · intro hd hg n o
    obtain ⟨e, he⟩ := hg n
    simp [Root.Lookup, hd n, he]

/-- Witness for C3: a failing classification, a failing fetch (empty store) and a
failing body read each give `ENOENT`; the empty store gives `ENOENT` for any name. -/
theorem Root_Lookup_ENOENT_iff_witness :
    ((Root.mk failingClient).Lookup "a.txt" ⟨0, 0⟩).errno = syscall.ENOENT ∧
    ((Root.mk (brokenBodyClient "a.txt" 5)).Lookup "a.txt" ⟨0, 0⟩).errno = syscall.ENOENT ∧
    ((Root.mk (storeClient [])).Lookup "anything" ⟨0, 0⟩).node = none ∧
    ((Root.mk (storeClient [])).Lookup "anything" ⟨0, 0⟩).errno = syscall.ENOENT :=
  ⟨(Root_Lookup_ENOENT_iff ⟨failingClient⟩ "a.txt" ⟨0, 0⟩).1.2 (Or.inl ⟨_, rfl⟩),
   (Root_Lookup_ENOENT_iff ⟨brokenBodyClient "a.txt" 5⟩ "a.txt" ⟨0, 0⟩).1.2
      (Or.inr (Or.inr ⟨rfl, ⟨.error "unexpected EOF", 5⟩, "unexpected EOF", rfl, rfl⟩)),
   ((Root_Lookup_ENOENT_iff ⟨storeClient []⟩ "" ⟨0, 0⟩).2.2.2 (fun _ => rfl)
      (fun _ => ⟨"NoSuchKey", rfl⟩) "anything" ⟨0, 0⟩).1,
   ((Root_Lookup_ENOENT_iff ⟨storeClient []⟩ "" ⟨0, 0⟩).2.2.2 (fun _ => rfl)
      (fun _ => ⟨"NoSuchKey", rfl⟩) "anything" ⟨0, 0⟩).2⟩

/-- C4: listing then resolving succeeds.  For the `Root` over a store client faithful
to a key list `ks` (`List("")` returns `ks`, `IsDirectory(n)` is true exactly when a
key begins with `n + "/"`, `GetObject(k)` and the body read succeed exactly on the keys
of `ks`), `Readdir` succeeds and `Lookup(e.Name)` returns errno 0 and a node for every
listed entry `e`.  For every `Directory` node whose `Readdir` succeeds, `Lookup(e.Name)`
returns errno 0 and a node for every listed entry `e`. -/
theorem Readdir_Lookup_round_trip :
    (∀ (r : Root) (ks : List String),
      r.Client.List "" = .ok ks →
      (∀ n, ∃ b, r.Client.IsDirectory n = .ok b ∧
        (b = true ↔ ∃ k ∈ ks, beginsWith k (n ++ "/"))) →
      (∀ k, (∃ object body, r.Client.GetObject k = .ok object ∧ object.Body = .ok body)
        ↔ k ∈ ks) →
      ∃ entries, r.Readdir.stream = some entries ∧ r.Readdir.errno = 0 ∧
        ∀ e ∈ entries, ∀ out,
          (r.Lookup e.Name out).errno = 0 ∧ (r.Lookup e.Name out).node.isSome = true) ∧
    (∀ (d : Directory) (entries : List DirEntry),
      d.Readdir.errno = 0 → d.Readdir.stream = some entries →
      ∀ e ∈ entries, ∀ out,
        (d.Lookup e.Name out).errno = 0 ∧ (d.Lookup e.Name out).node.isSome = true) := by
  constructor
  · intro r ks hList hDir hGet
    refine ⟨ks.map Root.entryOf, by rw [Root.Readdir_ok r ks hList],
      by rw [Root.Readdir_ok r ks hList], ?_⟩
    intro e he out
    obtain ⟨k, hk, rfl⟩ := List.mem_map.1 he
    obtain ⟨b, hb, hbk⟩ := hDir (Root.entryOf k).Name
    cases b with
    | true => simp [Root.Lookup, hb]
    | false =>
      have hmem : (Root.entryOf k).Name ∈ ks := by
        by_cases hlen : (strings.Split k '/').length = 1
        · rw [Root.entryOf_file k hlen]; exact hk
        · exfalso
          have := (Root.entryOf_dir k hlen).2
          have hb2 := hbk.2 ⟨k, hk, this⟩
          exact Bool.noConfusion hb2
      obtain ⟨object, body, ho, hbody⟩ := (hGet _).2 hmem
      simp [Root.Lookup, hb, ho, hbody]
  · intro d entries herr hstream e he out
    unfold Directory.Readdir at herr hstream
    by_cases hn : d.name = "hoge"
    · simp [hn] at hstream
      subst hstream
      simp at he
      subst he
      simp [Directory.Lookup]
    · simp [hn, syscall.ENOENT] at herr

/-- Witness for C4 on the store `a.txt`, `dir1/b.txt` and on the directory `hoge`. -/
theorem Readdir_Lookup_round_trip_witness :
    (∃ entries, (Root.mk (storeClient ["a.txt", "dir1/b.txt"])).Readdir.stream
        = some entries ∧
      (Root.mk (storeClient ["a.txt", "dir1/b.txt"])).Readdir.errno = 0 ∧
      ∀ e ∈ entries, ∀ out,
        ((Root.mk (storeClient ["a.txt", "dir1/b.txt"])).Lookup e.Name out).errno = 0 ∧
        ((Root.mk (storeClient ["a.txt", "dir1/b.txt"])).Lookup e.Name out).node.isSome
          = true) ∧
    (∀ e ∈ [DirEntry.mk syscall.S_IFREG "children.txt"], ∀ out,
      ((Directory.mk "hoge").Lookup e.Name out).errno = 0 ∧
      ((Directory.mk "hoge").Lookup e.Name out).node.isSome = true) :=
  ⟨Readdir_Lookup_round_trip.1 ⟨storeClient ["a.txt", "dir1/b.txt"]⟩ ["a.txt", "dir1/b.txt"]
      (storeClient_List_root _) (storeClient_IsDirectory _) (storeClient_GetObject _),
   Readdir_Lookup_round_trip.2 ⟨"hoge"⟩ [⟨syscall.S_IFREG, "children.txt"⟩] rfl rfl⟩

/-- C5 (as stated) fails: on the keys `d/a.txt`, `d/b.txt` the listing of
`Root.Readdir` holds two entries named `d`; nothing collapses them. -/
theorem Root_Readdir_dedup_counterexample :
    (storeClient ["d/a.txt", "d/b.txt"]).List "" = .ok ["d/a.txt", "d/b.txt"] ∧
    (Root.mk (storeClient ["d/a.txt", "d/b.txt"])).Readdir
      = ⟨some [⟨syscall.S_IFDIR, "d"⟩, ⟨syscall.S_IFDIR, "d"⟩], 0, [.list ""]⟩ ∧
    ¬ (((Root.mk (storeClient ["d/a.txt", "d/b.txt"])).Readdir.stream.getD []).map
        DirEntry.Name).Nodup := by
  refine ⟨rfl, by decide, by decide⟩

/-- C5 (amended): `Root.Readdir` emits exactly one entry per key of the list returned
by `Client.List("")`, in key order and without de-duplication; hence no two entries of
the listing have the same `Name` exactly when no two keys of the list have the same
first segment. -/
theorem Root_Readdir_one_entry_per_key (r : Root) (ks : List String)
    (hList : r.Client.List "" = .ok ks) :
    ∃ entries : List DirEntry,
      r.Readdir.stream = some entries ∧ r.Readdir.errno = 0 ∧
      entries.length = ks.length ∧
      (∀ (i : Nat) (h : i < ks.length), entries[i]? = some (Root.entryOf (ks.get ⟨i, h⟩))) ∧
      ((entries.map DirEntry.Name).Nodup ↔
        (ks.map (fun k => (strings.Split k '/').headD "")).Nodup) := by
  refine ⟨ks.map Root.entryOf, by rw [Root.Readdir_ok r ks hList],
    by rw [Root.Readdir_ok r ks hList], by simp, ?_, ?_⟩
  · intro i h
    simp [List.getElem?_map, List.getElem?_eq_getElem h]
  · have : (ks.map Root.entryOf).map DirEntry.Name
        = ks.map (fun k => (strings.Split k '/').headD "") := by
      simp [List.map_map, Function.comp_def, Root.entryOf]
    rw [this]

/-- Witness for amended C5 on the keys `a.txt`, `dir1/b.txt`. -/
theorem Root_Readdir_one_entry_per_key_witness :
    ∃ entries : List DirEntry,
      (Root.mk (storeClient ["a.txt", "dir1/b.txt"])).Readdir.stream = some entries ∧
      (Root.mk (storeClient ["a.txt", "dir1/b.txt"])).Readdir.errno = 0 ∧
      entries.length = ["a.txt", "dir1/b.txt"].length ∧
      (∀ (i : Nat) (h : i < ["a.txt", "dir1/b.txt"].length),
        entries[i]? = some (Root.entryOf (["a.txt", "dir1/b.txt"].get ⟨i, h⟩))) ∧
      ((entries.map DirEntry.Name).Nodup ↔
        (["a.txt", "dir1/b.txt"].map (fun k => (strings.Split k '/').headD "")).Nodup) :=
  Root_Readdir_one_entry_per_key ⟨storeClient ["a.txt", "dir1/b.txt"]⟩
    ["a.txt", "dir1/b.txt"] rfl

/-- C6 (as stated) fails: on the keys `x`, `x/y.txt` `Root.Readdir` reports no error
(errno 0) and returns a listing that presents `x` both as a file entry and as a
directory entry. -/
theorem Root_Readdir_collision_counterexample :
    (storeClient ["x", "x/y.txt"]).List "" = .ok ["x", "x/y.txt"] ∧
    (Root.mk (storeClient ["x", "x/y.txt"])).Readdir.errno = 0 ∧
    (Root.mk (storeClient ["x", "x/y.txt"])).Readdir.stream
      = some [⟨syscall.S_IFREG, "x"⟩, ⟨syscall.S_IFDIR, "x"⟩] := by
  refine ⟨rfl, by decide, by decide⟩

/-- C6 (amended): name collisions are not detected.  For every key list returned by
`Client.List("")` that contains a key `x` without delimiter and a key beginning with
`x + "/"`, `Root.Readdir` returns errno 0 and a listing that contains both a regular-file
entry named `x` and a directory entry named `x`. -/
theorem Root_Readdir_collision_listed_twice (r : Root) (ks : List String) (x k : String)
    (hList : r.Client.List "" = .ok ks)
    (hx : x ∈ ks) (hnodelim : '/' ∉ x.data)
    (hk : k ∈ ks) (hpre : beginsWith k (x ++ "/")) :
    r.Readdir.errno = 0 ∧
    ∃ entries : List DirEntry, r.Readdir.stream = some entries ∧
      DirEntry.mk syscall.S_IFREG x ∈ entries ∧
      DirEntry.mk syscall.S_IFDIR x ∈ entries := by
  rw [Root.Readdir_ok r ks hList]
  refine ⟨rfl, _, rfl, ?_, ?_⟩
  · exact List.mem_map.2 ⟨x, hx, Root.entryOf_of_no_delim x hnodelim⟩
  · exact List.mem_map.2 ⟨k, hk, Root.entryOf_of_beginsWith x k hnodelim hpre⟩

/-- Witness for amended C6 on the keys `x`, `x/y.txt`. -/
theorem Root_Readdir_collision_listed_twice_witness :
    (Root.mk (storeClient ["x", "x/y.txt"])).Readdir.errno = 0 ∧
    ∃ entries : List DirEntry,
      (Root.mk (storeClient ["x", "x/y.txt"])).Readdir.stream = some entries ∧
      DirEntry.mk syscall.S_IFREG "x" ∈ entries ∧
      DirEntry.mk syscall.S_IFDIR "x" ∈ entries :=
  Root_Readdir_collision_listed_twice ⟨storeClient ["x", "x/y.txt"]⟩ ["x", "x/y.txt"]
    "x" "x/y.txt" rfl (by decide) (by decide) (by decide) (by decide)

/-- C7: what the code does on the claim's scenario.  The `Directory` node named `dir1`
returns a nil stream with `ENOENT` and makes no call on the store, where the mapping
of the key `dir1/b.txt` under the prefix `dir1/` would be the single entry
`b.txt: S_IFREG`; only the literal name `hoge` lists anything, and it lists the
fixed entry `children.txt`. -/
theorem Directory_Readdir_hardcoded :
    (Directory.mk "dir1").Readdir = ⟨none, syscall.ENOENT, []⟩ ∧
    (Directory.mk "dir1").Readdir.stream ≠ some [Root.entryOf "b.txt"] ∧
    Root.entryOf "b.txt" = ⟨syscall.S_IFREG, "b.txt"⟩ ∧
    (Directory.mk "hoge").Readdir
      = ⟨some [⟨syscall.S_IFREG, "children.txt"⟩], 0, []⟩ := by
  refine ⟨by decide, by decide, by decide, by decide⟩

/-- C8 (as stated) fails: the mode written by `Root.Getattr` is `0755`, which has the
owner write bit and no file-type bits, and the mode written by `Root.Lookup` for the
directory `dir1` has permission bits `0755`, not `0555`. -/
theorem Root_directory_mode_counterexample :
    ((Root.mk (storeClient ["dir1/b.txt"])).Getattr ⟨0⟩).1.Mode = 0o755 ∧
    ((Root.mk (storeClient ["dir1/b.txt"])).Getattr ⟨0⟩).1.Mode &&& 0o777 ≠ 0o555 ∧
    ((Root.mk (storeClient ["dir1/b.txt"])).Getattr ⟨0⟩).1.Mode &&& 0o222 ≠ 0 ∧
    ((Root.mk (storeClient ["dir1/b.txt"])).Getattr ⟨0⟩).1.Mode &&& syscall.S_IFMT
      ≠ syscall.S_IFDIR ∧
    ((Root.mk (storeClient ["dir1/b.txt"])).Lookup "dir1" ⟨0, 0⟩).node
      = some ⟨.directory ⟨"dir1"⟩, syscall.S_IFDIR⟩ ∧
    ((Root.mk (storeClient ["dir1/b.txt"])).Lookup "dir1" ⟨0, 0⟩).out.Mode &&& 0o777
      ≠ 0o555 ∧
    ((Root.mk (storeClient ["dir1/b.txt"])).Lookup "dir1" ⟨0, 0⟩).out.Mode &&& 0o222
      ≠ 0 := by
  refine ⟨by decide, by decide, by decide, by decide, by decide, by decide, by decide⟩

/-- C8 (amended): `Root.Getattr` returns errno 0 and writes the mode `0755` exactly
(permission bits only).  For every name that `Root.Lookup` resolves as a directory, the
mode written to `EntryOut` is `S_IFDIR | 0755`: its file type is `S_IFDIR`, its
permission bits are exactly `0755`, that is read and execute for owner, group and
other, write for the owner and for nobody else. -/
theorem Root_directory_mode_0755 (r : Root) (name : String) (out : EntryOut)
    (aout : AttrOut) :
    (r.Getattr aout).2 = 0 ∧ (r.Getattr aout).1.Mode = 0o755 ∧
    (∀ d m, (r.Lookup name out).node = some ⟨.directory d, m⟩ →
      (r.Lookup name out).errno = 0 ∧
      (r.Lookup name out).out.Mode = syscall.S_IFDIR ||| 0o755 ∧
      (r.Lookup name out).out.Mode &&& syscall.S_IFMT = syscall.S_IFDIR ∧
      (r.Lookup name out).out.Mode &&& 0o7777 = 0o755 ∧
      (r.Lookup name out).out.Mode &&& 0o555 = 0o555 ∧
      (r.Lookup name out).out.Mode &&& 0o222 = 0o200) := by
  refine ⟨rfl, rfl, ?_⟩
  intro d m
  rcases h : r.Client.IsDirectory name with e | b
  · simp [Root.Lookup, h]
  · cases b
    · rcases h2 : r.Client.GetObject name with e | object
      · simp [Root.Lookup, h, h2]
      · rcases h3 : object.Body with e | body <;> simp [Root.Lookup, h, h2, h3]
    · have hL : r.Lookup name out = ⟨some ⟨.directory ⟨name⟩, syscall.S_IFDIR⟩, 0,
          ⟨syscall.S_IFDIR ||| 0o755, out.Size⟩, [.isDirectory name]⟩ := by
        simp [Root.Lookup, h]
      rw [hL]
      intro _
      refine ⟨rfl, rfl, ?_, ?_, ?_, ?_⟩
      · show (syscall.S_IFDIR ||| 0o755) &&& syscall.S_IFMT = syscall.S_IFDIR
        decide
      · show (syscall.S_IFDIR ||| 0o755) &&& 0o7777 = 0o755
        decide
      · show (syscall.S_IFDIR ||| 0o755) &&& 0o555 = 0o555
        decide
      · show (syscall.S_IFDIR ||| 0o755) &&& 0o222 = 0o200
        decide

/-- Witness for amended C8 on the store `dir1/b.txt` and the name `dir1`. -/
theorem Root_directory_mode_0755_witness :
    ((Root.mk (storeClient ["dir1/b.txt"])).Lookup "dir1" ⟨0, 0⟩).node
      = some ⟨.directory ⟨"dir1"⟩, syscall.S_IFDIR⟩ ∧
    ((Root.mk (storeClient ["dir1/b.txt"])).Lookup "dir1" ⟨0, 0⟩).out.Mode
      = syscall.S_IFDIR ||| 0o755 :=
  ⟨by decide,
   ((Root_directory_mode_0755 ⟨storeClient ["dir1/b.txt"]⟩ "dir1" ⟨0, 0⟩ ⟨0⟩).2.2
      ⟨"dir1"⟩ syscall.S_IFDIR (by decide)).2.1⟩

/-- C9 (as stated) fails: for the file `a.txt` the mode written to `EntryOut` by
`Root.Lookup` is `0444`, whose file-type bits are zero, not `S_IFREG`. -/
theorem Root_file_mode_counterexample :
    ((Root.mk (storeClient ["a.txt"])).Lookup "a.txt" ⟨0, 0⟩).node
      = some ⟨.memRegularFile (bytesOf "a.txt") 0o444, syscall.S_IFREG⟩ ∧
    ((Root.mk (storeClient ["a.txt"])).Lookup "a.txt" ⟨0, 0⟩).out.Mode = 0o444 ∧
    ((Root.mk (storeClient ["a.txt"])).Lookup "a.txt" ⟨0, 0⟩).out.Mode &&& syscall.S_IFMT
      = 0 ∧
    ((Root.mk (storeClient ["a.txt"])).Lookup "a.txt" ⟨0, 0⟩).out.Mode &&& syscall.S_IFMT
      ≠ syscall.S_IFREG := by
  refine ⟨by decide, by decide, by decide, by decide⟩

/-- C9 (amended): for every name that `Root.Lookup` resolves as a file, the `EntryOut`
it fills has `Mode` exactly `0444`: read-only permission bits, no write or execute bit,
and no file-type bits (the type `S_IFREG` is carried by the stable attribute of the
returned node); and `Size` is `uint64` of the content length reported by `GetObject`
for that key, which equals that length whenever it is non-negative (and below
`2^64`). -/
theorem Root_file_mode_0444_and_size (r : Root) (name : String) (out : EntryOut)
    (data : List Nat) (am m : Nat)
    (hfile : (r.Lookup name out).node = some ⟨.memRegularFile data am, m⟩) :
    (r.Lookup name out).errno = 0 ∧
    (r.Lookup name out).out.Mode = 0o444 ∧
    (r.Lookup name out).out.Mode &&& 0o333 = 0 ∧
    (r.Lookup name out).out.Mode &&& syscall.S_IFMT = 0 ∧
    m = syscall.S_IFREG ∧
    ∃ object, r.Client.GetObject name = .ok object ∧
      (r.Lookup name out).out.Size = uint64 object.ContentLengthByte ∧
      (0 ≤ object.ContentLengthByte → object.ContentLengthByte < 2 ^ 64 →
        ((r.Lookup name out).out.Size : Int) = object.ContentLengthByte) := by
  revert hfile
  rcases h : r.Client.IsDirectory name with e | b
  · simp [Root.Lookup, h]
  · cases b
    · rcases h2 : r.Client.GetObject name with e | object
      · simp [Root.Lookup, h, h2]
      · rcases h3 : object.Body with e | body
        · simp [Root.Lookup, h, h2, h3]
        · have hL : r.Lookup name out = ⟨some ⟨.memRegularFile body 0o444, syscall.S_IFREG⟩,
              0, ⟨0o444, uint64 object.ContentLengthByte⟩,
              [.isDirectory name, .getObject name]⟩ := by
            simp [Root.Lookup, h, h2, h3]
          rw [hL]
          intro hd
          simp at hd
          refine ⟨rfl, rfl, ?_, ?_, hd.2.symm, object, rfl, rfl, ?_⟩
          · show (0o444 : Nat) &&& 0o333 = 0
            decide
          · show (0o444 : Nat) &&& syscall.S_IFMT = 0
            decide
          intro h0 h64
          show ((uint64 object.ContentLengthByte : Nat) : Int) = _
          unfold uint64
          rw [Int.toNat_of_nonneg (Int.emod_nonneg _ (by norm_num))]
          exact Int.emod_eq_of_lt h0 h64
    · simp [Root.Lookup, h]

/-- Witness for amended C9 on the store `a.txt` and the name `a.txt`. -/
theorem Root_file_mode_0444_and_size_witness :
    ((Root.mk (storeClient ["a.txt"])).Lookup "a.txt" ⟨0, 0⟩).node
      = some ⟨.memRegularFile (bytesOf "a.txt") 0o444, syscall.S_IFREG⟩ ∧
    ((Root.mk (storeClient ["a.txt"])).Lookup "a.txt" ⟨0, 0⟩).out.Mode = 0o444 :=
  ⟨by decide,
   (Root_file_mode_0444_and_size ⟨storeClient ["a.txt"]⟩ "a.txt" ⟨0, 0⟩
      (bytesOf "a.txt") 0o444 syscall.S_IFREG (by decide)).2.1⟩

/-- C10: what the code does on the only name `Directory.Lookup` resolves.  The call
returns errno 0 and a regular-file node holding the 12 bytes of `childrennnnn`, and
writes `Size = 1` to `EntryOut`. -/
theorem Directory_Lookup_size_mismatch :
    ((Directory.mk "hoge").Lookup "children.txt" ⟨0, 0⟩).errno = 0 ∧
    ((Directory.mk "hoge").Lookup "children.txt" ⟨0, 0⟩).node
      = some ⟨.memRegularFile (bytesOf "childrennnnn") 0o444, syscall.S_IFREG⟩ ∧
    (bytesOf "childrennnnn").length = 12 ∧
    ((Directory.mk "hoge").Lookup "children.txt" ⟨0, 0⟩).out.Size = 1 ∧
    ((Directory.mk "hoge").Lookup "children.txt" ⟨0, 0⟩).out.Size
      ≠ (bytesOf "childrennnnn").length := by
  refine ⟨by decide, by decide, by decide, by decide, by decide⟩

end MyownFilesystem
